import Mathlib

/-!
Verification development for the choromap data-preparation pipeline
(`DataFramePrepper.prep_info_df` / `dfprep.prep_info_df`) and the frame
sequencer (`ChoroMapBuilder.get_dates`).

Modelling conventions:
* Calendar dates are day ordinals (`Nat`): consecutive calendar days are
  consecutive naturals, and `date.fromisoformat` / `str` round-trips are the
  identity.  `timedelta(days=n)` is `+ n`.
* Numeric cell values are `ℚ`; a missing cell (pandas `NaN`) is `none` in
  `Option ℚ`.
* `pivot_table(index='location', columns='date', values=category,
  dropna=False)` produces, for each distinct observed location, one row whose
  columns are the distinct observed dates in ascending order; a cell is the
  arithmetic mean of the matching records (the default `aggfunc='mean'`), or
  `NaN` when no record matches.
* `DataFrame.interpolate(method='linear', limit_direction='forward', axis=1)`
  interpolates positionally (columns are treated as equally spaced): an
  interior run of `NaN`s between known values at column positions `j < k`
  receives the straight line between those positions, a trailing run of
  `NaN`s is padded with the last known value, and a leading run (no prior
  known value) stays `NaN`.
* `DataFrame.rolling(7, axis=1).mean()` replaces each cell by the mean of the
  window of 7 cells ending at it, and yields `NaN` when the window extends
  past the start of the row or contains a `NaN` (`min_periods` defaults to
  the window size).
* `fillna(0)` replaces every remaining `NaN` by `0`.
-/

/-- One observation record of the informational dataframe, after the
`temp_df[['location', 'date', category]]` projection: a location identifier,
a calendar date (day ordinal) and the tracked category's numeric value. -/
structure Obs where
  location : String
  date : Nat
  value : ℚ
deriving DecidableEq

/-- The values of all records carrying a given (location, date) pair: the
multiset that `pivot_table`'s default `aggfunc='mean'` aggregates. -/
def matchingVals (rs : List Obs) (loc : String) (d : Nat) : List ℚ :=
  (rs.filter (fun r => r.location == loc && r.date == d)).map Obs.value

/-- One cell of the pivoted table: the mean of the matching records' values,
or `NaN` (`none`) when no record matches. -/
def pivotCell (rs : List Obs) (loc : String) (d : Nat) : Option ℚ :=
  if matchingVals rs loc d = [] then none
  else some ((matchingVals rs loc d).sum / ((matchingVals rs loc d).length : ℚ))

/-- The column labels of the pivoted table: the distinct observed dates in
ascending order (pandas sorts pivot columns). -/
def sortedDates (rs : List Obs) : List Nat :=
  List.insertionSort (· ≤ ·) (rs.map Obs.date).dedup

/-- The index of the pivoted table: the distinct observed locations in
ascending order (pandas sorts the pivot index). -/
def sortedLocs (rs : List Obs) : List String :=
  List.insertionSort (· ≤ ·) (rs.map Obs.location).dedup

/-- One row of the pivoted table, aligned with `sortedDates`. -/
def pivotRow (rs : List Obs) (loc : String) : List (Option ℚ) :=
  (sortedDates rs).map (pivotCell rs loc)

/-- The last known (non-`NaN`) cell strictly before position `i`, with its
position. -/
def prevKnown (xs : List (Option ℚ)) : Nat → Option (Nat × ℚ)
  | 0 => none
  | i + 1 =>
    match xs.getD i none with
    | some v => some (i, v)
    | none => prevKnown xs i

/-- The first known (non-`NaN`) cell of a row, with its position. -/
def firstKnown : List (Option ℚ) → Option (Nat × ℚ)
  | [] => none
  | some v :: _ => some (0, v)
  | none :: ys => (firstKnown ys).map (fun p => (p.1 + 1, p.2))

/-- The first known (non-`NaN`) cell strictly after position `i`, with its
position. -/
def nextKnown (xs : List (Option ℚ)) (i : Nat) : Option (Nat × ℚ) :=
  (firstKnown (xs.drop (i + 1))).map (fun p => (i + 1 + p.1, p.2))

/-- The value `interpolate(method='linear', limit_direction='forward',
axis=1)` leaves at position `i` of a row: known cells are unchanged; a `NaN`
with a known value at position `j` before it and the next known value at
position `k` after it becomes the straight line between positions `j` and `k`
evaluated at `i`; a `NaN` with a known value before it but none after it is
padded with that last known value; a `NaN` with no known value before it
stays `NaN`. -/
def interpAt (xs : List (Option ℚ)) (i : Nat) : Option ℚ :=
  match xs.getD i none with
  | some v => some v
  | none =>
    match prevKnown xs i with
    | none => none
    | some (j, vj) =>
      match nextKnown xs i with
      | none => some vj
      | some (k, vk) =>
        some (vj + (vk - vj) * (((i : ℚ) - (j : ℚ)) / ((k : ℚ) - (j : ℚ))))

/-- A whole row after `interpolate(...)`. -/
def interpRow (xs : List (Option ℚ)) : List (Option ℚ) :=
  (List.range xs.length).map (interpAt xs)

/-- The cell `rolling(7, axis=1).mean()` leaves at position `i` of a row: the
mean of the 7-cell window ending at `i`, or `NaN` when the window is
incomplete (position `< 6`) or contains a `NaN`. -/
def rollCell (xs : List (Option ℚ)) (i : Nat) : Option ℚ :=
  let window := (List.range 7).map (fun t => xs.getD (i - t) none)
  if 7 ≤ i + 1 ∧ window.all Option.isSome then
    some ((window.map (fun o => o.getD 0)).sum / 7)
  else none

/-- A whole row after `rolling(7, axis=1).mean()`. -/
def rollingMean7 (xs : List (Option ℚ)) : List (Option ℚ) :=
  (List.range xs.length).map (rollCell xs)

/-- The final `fillna(0)`: every remaining `NaN` becomes `0`. -/
def fillna0 (xs : List (Option ℚ)) : List ℚ :=
  xs.map (fun o => o.getD 0)

/-- One row of the table just before the final `fillna(0)`: pivot, then
interpolate, then (when `roll_avg`) the 7-column rolling mean. -/
def stageRow (rs : List Obs) (roll_avg : Bool) (loc : String) : List (Option ℚ) :=
  if roll_avg then rollingMean7 (interpRow (pivotRow rs loc))
  else interpRow (pivotRow rs loc)

/-- One row of the dataframe returned by `prep_info_df`, aligned with
`sortedDates`. -/
def prepRow (rs : List Obs) (roll_avg : Bool) (loc : String) : List ℚ :=
  fillna0 (stageRow rs roll_avg loc)

/-- The reshaped matrix: locations in the index, dates in the columns, one
numeric row per location. -/
structure DenseMatrix where
  locations : List String
  dates : List Nat
  rows : List (List ℚ)
deriving DecidableEq

/-- The matrix built by `prep_info_df` from the projected records:
`pivot_table` / `interpolate` / optional `rolling(7).mean()` / `fillna(0)`. -/
def prep_info_df_matrix (rs : List Obs) (roll_avg : Bool) : DenseMatrix :=
  { locations := sortedLocs rs
    dates := sortedDates rs
    rows := (sortedLocs rs).map (prepRow rs roll_avg) }

/-- Positional association lookup: the value aligned with the first occurrence
of a key, `none` when the key is absent or the value list is too short. -/
def zipLookup {α β : Type} [DecidableEq α] : List α → List β → α → Option β
  | [], _, _ => none
  | _, [], _ => none
  | k :: ks, v :: vs, a => if k = a then some v else zipLookup ks vs a

/-- The cell of a matrix at a (location, date) pair; `none` when the location
is not in the index or the date is not among the columns. -/
def DenseMatrix.lookup (m : DenseMatrix) (loc : String) (d : Nat) : Option ℚ :=
  (zipLookup m.locations m.rows loc).bind (fun row => zipLookup m.dates row d)

/-- The informational dataframe as seen by `prep_info_df` in wide form: the
current labels of its date and location columns, plus its records.  The
in-place `rename` mutates the labels of the caller's dataframe. -/
structure InfoTable where
  colDates : String
  colLocation : String
  rows : List Obs
deriving DecidableEq

/-- The in-place rename `temp_df.rename(columns={col_dates: 'date', col_location: 'location'},
inplace=True)` where `temp_df` aliases the input dataframe: each column label
equal to `col_dates` (resp. `col_location`) becomes `'date'` (resp.
`'location'`); other labels are untouched. -/
def renameInplace (col_dates col_location : String) (t : InfoTable) : InfoTable :=
  { t with
    colDates :=
      if t.colDates = col_dates then "date"
      else if t.colDates = col_location then "location"
      else t.colDates
    colLocation :=
      if t.colLocation = col_dates then "date"
      else if t.colLocation = col_location then "location"
      else t.colLocation }

/-- The function `prep_info_df` on a wide-form dataframe (`long=False`): it renames the
date and location columns of the caller's dataframe in place, then builds the
reshaped matrix from the records.  The result pairs the returned matrix with
the state of the input dataframe after the call. -/
def prep_info_df (col_dates col_location : String) (roll_avg : Bool)
    (t : InfoTable) : DenseMatrix × InfoTable :=
  (prep_info_df_matrix t.rows roll_avg, renameInplace col_dates col_location t)

/-- The `count` argument of `get_dates`: the string `'all'`, a Python `int`,
or any other value. -/
inductive FrameCount where
  | all : FrameCount
  | int (n : ℤ) : FrameCount
  | other (s : String) : FrameCount
deriving DecidableEq

/-- The message of the `ValueError` raised by `get_dates` on an invalid
`count`. -/
def invalidCountMsg : String :=
  "Invalid count: must be \"all\" or an integer higher than 1"

/-- The sequencer `ChoroMapBuilder.get_dates(merged_df, count, begin_date)`, acting on the
matrix's date columns.  (In `merged_df` a geometry column precedes the date
columns; since ISO date strings sort before alphabetic labels,
`merged_df.columns.min()` is still the smallest date and
`merged_df.columns[-1]` the last date column, so the date-column view is
faithful.)  `begin_date` defaults to the smallest column label; no bounds
check is performed on it.  `count == 'all'` walks one day at a time up to the
last column inclusive; an integer `count > 1` walks exactly `count` days from
`begin_date`; anything else raises `ValueError`.  An empty column set makes
the begin/most-recent lookups themselves fail. -/
def get_dates (columns : List Nat) (count : FrameCount) (begin_date : Option Nat) :
    Except String (List Nat) :=
  match columns with
  | [] => Except.error "empty columns"
  | c :: cs =>
    let b := begin_date.getD (cs.foldl min c)
    let mostRecent := (c :: cs).getLast (by simp)
    match count with
    | FrameCount.all =>
      Except.ok ((List.range (mostRecent + 1 - b)).map (fun n => b + n))
    | FrameCount.int n =>
      if 1 < n then Except.ok ((List.range n.toNat).map (fun n => b + n))
      else Except.error invalidCountMsg
    | FrameCount.other _ => Except.error invalidCountMsg

/-! ### Helper lemmas -/

theorem zipLookup_eq_none {α β : Type} [DecidableEq α] (ks : List α) (vs : List β)
    (a : α) (h : a ∉ ks) : zipLookup ks vs a = none := by
  induction ks generalizing vs with
  | nil => cases vs <;> rfl
  | cons k ks ih =>
    cases vs with
    | nil => rfl
    | cons v vs =>
      have hk : ¬ (k = a) := fun he => h (he ▸ List.mem_cons_self k ks)
      simp only [zipLookup, if_neg hk]
      exact ih vs (fun hm => h (List.mem_cons_of_mem k hm))

theorem zipLookup_isSome {α β : Type} [DecidableEq α] (ks : List α) (vs : List β)
    (a : α) (h : a ∈ ks) (hlen : ks.length ≤ vs.length) :
    (zipLookup ks vs a).isSome := by
  induction ks generalizing vs with
  | nil => cases h
  | cons k ks ih =>
    cases vs with
    | nil => simp at hlen
    | cons v vs =>
      by_cases hk : k = a
      · simp [zipLookup, hk]
      · have : a ∈ ks := by
          rcases List.mem_cons.mp h with h1 | h1
          · exact absurd h1.symm hk
          · exact h1
        simp only [zipLookup, if_neg hk]
        exact ih vs this (Nat.le_of_succ_le_succ hlen)

theorem zipLookup_map_right {α β γ : Type} [DecidableEq α] (f : β → γ)
    (ks : List α) (vs : List β) (a : α) :
    zipLookup ks (vs.map f) a = (zipLookup ks vs a).map f := by
  induction ks generalizing vs with
  | nil => cases vs <;> rfl
  | cons k ks ih =>
    cases vs with
    | nil => rfl
    | cons v vs =>
      by_cases hk : k = a
      · simp [zipLookup, hk]
      · simp only [List.map_cons, zipLookup, if_neg hk]
        exact ih vs

theorem zipLookup_graph {α β : Type} [DecidableEq α] (f : α → β) (ks : List α)
    (a : α) (h : a ∈ ks) : zipLookup ks (ks.map f) a = some (f a) := by
  induction ks with
  | nil => cases h
  | cons k ks ih =>
    by_cases hk : k = a
    · subst hk; simp [zipLookup]
    · have : a ∈ ks := by
        rcases List.mem_cons.mp h with h1 | h1
        · exact absurd h1.symm hk
        · exact h1
      simp only [List.map_cons, zipLookup, if_neg hk]
      exact ih this

theorem zipLookup_eq_getElem? {α β : Type} [DecidableEq α] (ks : List α)
    (vs : List β) (i : Nat) (a : α) (hnd : ks.Nodup) (hk : ks[i]? = some a) :
    zipLookup ks vs a = vs[i]? := by
  induction ks generalizing vs i with
  | nil => simp at hk
  | cons k ks ih =>
    cases i with
    | zero =>
      simp only [List.getElem?_cons_zero, Option.some.injEq] at hk
      subst hk
      cases vs with
      | nil => simp [zipLookup]
      | cons v vs => simp [zipLookup]
    | succ i =>
      simp only [List.getElem?_cons_succ] at hk
      have hmem : a ∈ ks := by
        have := List.getElem?_eq_some_iff.mp hk
        rcases this with ⟨hlt, hget⟩
        exact hget ▸ List.getElem_mem hlt
      have hka : k ≠ a := fun he => ((List.nodup_cons.mp hnd).1 (he ▸ hmem))
      cases vs with
      | nil =>
        simp only [zipLookup]
        simp
      | cons v vs =>
        simp only [zipLookup, if_neg hka, List.getElem?_cons_succ]
        exact ih vs i (List.nodup_cons.mp hnd).2 hk

@[simp] theorem fillna0_length (xs : List (Option ℚ)) :
    (fillna0 xs).length = xs.length := by
  simp [fillna0]

@[simp] theorem interpRow_length (xs : List (Option ℚ)) :
    (interpRow xs).length = xs.length := by
  simp [interpRow]

@[simp] theorem rollingMean7_length (xs : List (Option ℚ)) :
    (rollingMean7 xs).length = xs.length := by
  simp [rollingMean7]

@[simp] theorem pivotRow_length (rs : List Obs) (loc : String) :
    (pivotRow rs loc).length = (sortedDates rs).length := by
  simp [pivotRow]

theorem stageRow_length (rs : List Obs) (roll_avg : Bool) (loc : String) :
    (stageRow rs roll_avg loc).length = (sortedDates rs).length := by
  cases roll_avg <;> simp [stageRow]

theorem prepRow_length (rs : List Obs) (roll_avg : Bool) (loc : String) :
    (prepRow rs roll_avg loc).length = (sortedDates rs).length := by
  simp [prepRow, stageRow_length]

theorem interpRow_getElem? (xs : List (Option ℚ)) (i : Nat) (h : i < xs.length) :
    (interpRow xs)[i]? = some (interpAt xs i) := by
  simp [interpRow, List.getElem?_range h]

theorem rollingMean7_getElem? (xs : List (Option ℚ)) (i : Nat) (h : i < xs.length) :
    (rollingMean7 xs)[i]? = some (rollCell xs i) := by
  simp [rollingMean7, List.getElem?_range h]

theorem fillna0_getElem? (xs : List (Option ℚ)) (i : Nat) :
    (fillna0 xs)[i]? = (xs[i]?).map (fun o => o.getD 0) := by
  simp [fillna0]

theorem mem_sortedDates {rs : List Obs} {d : Nat} :
    d ∈ sortedDates rs ↔ ∃ r ∈ rs, r.date = d := by
  unfold sortedDates
  rw [(List.perm_insertionSort (· ≤ ·) (rs.map Obs.date).dedup).mem_iff,
    List.mem_dedup, List.mem_map]

theorem mem_sortedLocs {rs : List Obs} {loc : String} :
    loc ∈ sortedLocs rs ↔ ∃ r ∈ rs, r.location = loc := by
  unfold sortedLocs
  rw [(List.perm_insertionSort (· ≤ ·) (rs.map Obs.location).dedup).mem_iff,
    List.mem_dedup, List.mem_map]

theorem sortedDates_nodup (rs : List Obs) : (sortedDates rs).Nodup :=
  ((List.perm_insertionSort (· ≤ ·) (rs.map Obs.date).dedup).nodup_iff).mpr
    (List.nodup_dedup (rs.map Obs.date))

theorem pairwise_lt_of_le_of_ne : ∀ {l : List Nat}, List.Pairwise (· ≤ ·) l →
    List.Pairwise (· ≠ ·) l → List.Pairwise (· < ·) l
  | [], _, _ => List.Pairwise.nil
  | _ :: _, hs, hn => by
    rcases List.pairwise_cons.mp hs with ⟨hx, hs2⟩
    rcases List.pairwise_cons.mp hn with ⟨hnx, hn2⟩
    exact List.pairwise_cons.mpr
      ⟨fun y hy => lt_of_le_of_ne (hx y hy) (hnx y hy),
        pairwise_lt_of_le_of_ne hs2 hn2⟩

theorem sortedDates_chain_lt (rs : List Obs) :
    List.Chain' (· < ·) (sortedDates rs) := by
  have hs : List.Pairwise (· ≤ ·) (sortedDates rs) :=
    List.sorted_insertionSort (· ≤ ·) (rs.map Obs.date).dedup
  have hn : List.Pairwise (· ≠ ·) (sortedDates rs) := sortedDates_nodup rs
  exact List.chain'_iff_pairwise.mpr (pairwise_lt_of_le_of_ne hs hn)

theorem getD_drop (xs : List (Option ℚ)) (n t : Nat) :
    (xs.drop n).getD t none = xs.getD (n + t) none := by
  simp [List.getD_eq_getElem?_getD, List.getElem?_drop]

theorem prevKnown_of_known (xs : List (Option ℚ)) (i j : Nat) (vj : ℚ)
    (hji : j < i) (hj : xs.getD j none = some vj)
    (hgap : ∀ m, j < m → m < i → xs.getD m none = none) :
    prevKnown xs i = some (j, vj) := by
  induction i with
  | zero => omega
  | succ i ih =>
    by_cases hij : j = i
    · subst hij
      show (match xs.getD j none with
        | some v => some (j, v)
        | none => prevKnown xs j) = some (j, vj)
      rw [hj]
    · have hlt : j < i := by omega
      have hnone : xs.getD i none = none := hgap i hlt (Nat.lt_succ_self i)
      show (match xs.getD i none with
        | some v => some (i, v)
        | none => prevKnown xs i) = some (j, vj)
      rw [hnone]
      exact ih hlt (fun m hm1 hm2 => hgap m hm1 (by omega))

theorem prevKnown_of_all_none (xs : List (Option ℚ)) (i : Nat)
    (h : ∀ m, m < i → xs.getD m none = none) : prevKnown xs i = none := by
  induction i with
  | zero => rfl
  | succ i ih =>
    show (match xs.getD i none with
      | some v => some (i, v)
      | none => prevKnown xs i) = none
    rw [h i (Nat.lt_succ_self i)]
    exact ih (fun m hm => h m (by omega))

theorem firstKnown_of_known (ys : List (Option ℚ)) (m : Nat) (v : ℚ)
    (hv : ys.getD m none = some v) (hb : ∀ t, t < m → ys.getD t none = none) :
    firstKnown ys = some (m, v) := by
  induction ys generalizing m with
  | nil => simp [List.getD] at hv
  | cons y ys ih =>
    cases m with
    | zero =>
      rw [List.getD_cons_zero] at hv
      subst hv
      rfl
    | succ m =>
      have hy : y = none := by
        have h0 := hb 0 (Nat.succ_pos m)
        rwa [List.getD_cons_zero] at h0
      subst hy
      rw [List.getD_cons_succ] at hv
      have hrec := ih m hv (fun t ht => by
        have h1 := hb (t + 1) (by omega)
        rwa [List.getD_cons_succ] at h1)
      simp [firstKnown, hrec]

theorem nextKnown_of_known (xs : List (Option ℚ)) (i k : Nat) (vk : ℚ)
    (hik : i < k) (hk : xs.getD k none = some vk)
    (hgap : ∀ m, i < m → m < k → xs.getD m none = none) :
    nextKnown xs i = some (k, vk) := by
  have he : i + 1 + (k - (i + 1)) = k := by omega
  have hm : (xs.drop (i + 1)).getD (k - (i + 1)) none = some vk := by
    rw [getD_drop, he]
    exact hk
  have hb : ∀ t, t < k - (i + 1) → (xs.drop (i + 1)).getD t none = none := by
    intro t ht
    rw [getD_drop]
    exact hgap (i + 1 + t) (by omega) (by omega)
  have hf := firstKnown_of_known (xs.drop (i + 1)) (k - (i + 1)) vk hm hb
  unfold nextKnown
  rw [hf]
  simp only [Option.map_some']
  rw [he]

theorem interpAt_known (xs : List (Option ℚ)) (i : Nat) (v : ℚ)
    (h : xs.getD i none = some v) : interpAt xs i = some v := by
  unfold interpAt
  rw [h]

theorem interpAt_between (xs : List (Option ℚ)) (i j k : Nat) (vj vk : ℚ)
    (hji : j < i) (hik : i < k)
    (hj : xs.getD j none = some vj) (hk : xs.getD k none = some vk)
    (hgap : ∀ m, j < m → m < k → xs.getD m none = none) :
    interpAt xs i =
      some (vj + (vk - vj) * (((i : ℚ) - (j : ℚ)) / ((k : ℚ) - (j : ℚ)))) := by
  have hi : xs.getD i none = none := hgap i hji hik
  have hp : prevKnown xs i = some (j, vj) :=
    prevKnown_of_known xs i j vj hji hj (fun m h1 h2 => hgap m h1 (by omega))
  have hn : nextKnown xs i = some (k, vk) :=
    nextKnown_of_known xs i k vk hik hk (fun m h1 h2 => hgap m (by omega) h2)
  unfold interpAt
  rw [hi, hp, hn]

theorem interpAt_leading (xs : List (Option ℚ)) (i : Nat)
    (h : ∀ m, m ≤ i → xs.getD m none = none) : interpAt xs i = none := by
  have hp : prevKnown xs i = none :=
    prevKnown_of_all_none xs i (fun m hm => h m (by omega))
  unfold interpAt
  rw [h i (le_refl i), hp]

theorem stageRow_false (rs : List Obs) (loc : String) :
    stageRow rs false loc = interpRow (pivotRow rs loc) := rfl

theorem stageRow_true (rs : List Obs) (loc : String) :
    stageRow rs true loc = rollingMean7 (interpRow (pivotRow rs loc)) := rfl

theorem prepRow_getElem? (rs : List Obs) (roll_avg : Bool) (loc : String) (i : Nat) :
    (prepRow rs roll_avg loc)[i]? =
      ((stageRow rs roll_avg loc)[i]?).map (fun o => o.getD 0) := by
  unfold prepRow
  exact fillna0_getElem? _ i

theorem lookup_prep (rs : List Obs) (roll_avg : Bool) (loc : String) (d : Nat)
    (hloc : loc ∈ sortedLocs rs) :
    (prep_info_df_matrix rs roll_avg).lookup loc d =
      (zipLookup (sortedDates rs) (stageRow rs roll_avg loc) d).map
        (fun o => o.getD 0) := by
  unfold DenseMatrix.lookup prep_info_df_matrix
  simp only
  rw [zipLookup_graph (prepRow rs roll_avg) (sortedLocs rs) loc hloc]
  show zipLookup (sortedDates rs) (prepRow rs roll_avg loc) d = _
  unfold prepRow fillna0
  exact zipLookup_map_right _ (sortedDates rs) (stageRow rs roll_avg loc) d

/-- Records for a single location observed on days 0 and 2 only: day 1 lies
strictly between the minimum and maximum observed date but no record carries
it. -/
def gapRecords : List Obs := [⟨"A", 0, 10⟩, ⟨"A", 2, 30⟩]

/-- C1 (amended): the date columns of every reshaped matrix are exactly the
distinct dates observed in the input records, in strictly ascending order.
`prep_info_df` never inserts a calendar date that no record carries, so the
columns are a contiguous daily range only when the observed dates already
are. -/
theorem C1_dates_are_observed_dates (rs : List Obs) (roll_avg : Bool) :
    (∀ d, d ∈ (prep_info_df_matrix rs roll_avg).dates ↔ ∃ r ∈ rs, r.date = d) ∧
      List.Chain' (· < ·) (prep_info_df_matrix rs roll_avg).dates :=
  ⟨fun _ => mem_sortedDates, sortedDates_chain_lt rs⟩

/-- C1 (counterexample): with observations on days 0 and 2 only, the reshaped
matrix's date columns are `[0, 2]`; calendar day 1 lies between the minimum
and maximum observed date yet is not a column, so the columns are not a
contiguous daily range. -/
theorem C1_counterexample :
    (prep_info_df_matrix gapRecords false).dates = [0, 2] ∧
      1 ∉ (prep_info_df_matrix gapRecords false).dates := by
  exact ⟨by decide, by decide⟩

/-- C2 (amended): for every (location, date) pair where the location is in
the matrix's index and the date is among the matrix's columns (the distinct
observed dates), the cell holds a defined numeric value: the value left by
interpolation/optional smoothing when that stage is defined there, and the
fallback `0` when that stage is still undefined (`NaN`) there.  (Dates inside
the observed min-max range that no record carries have no column at all, so
the guarantee holds on the matrix's actual grid, not on the full calendar
range.) -/
theorem C2_cells_defined (rs : List Obs) (roll_avg : Bool) (loc : String) (d : Nat)
    (hloc : loc ∈ (prep_info_df_matrix rs roll_avg).locations)
    (hd : d ∈ (prep_info_df_matrix rs roll_avg).dates) :
    ∃ q : ℚ, (prep_info_df_matrix rs roll_avg).lookup loc d = some q ∧
      (zipLookup (sortedDates rs) (stageRow rs roll_avg loc) d = some none → q = 0) ∧
      (∀ v : ℚ,
        zipLookup (sortedDates rs) (stageRow rs roll_avg loc) d = some (some v) →
          q = v) := by
  have hl := lookup_prep rs roll_avg loc d hloc
  have hsome : (zipLookup (sortedDates rs) (stageRow rs roll_avg loc) d).isSome := by
    apply zipLookup_isSome
    · exact hd
    · rw [stageRow_length]
  rcases Option.isSome_iff_exists.mp hsome with ⟨o, ho⟩
  refine ⟨o.getD 0, ?_, ?_, ?_⟩
  · rw [hl, ho]
    rfl
  · intro h0
    rw [ho] at h0
    injection h0 with h0
    rw [h0]
    rfl
  · intro v hv
    rw [ho] at hv
    injection hv with hv
    rw [hv]
    rfl

/-- C2 (witness): concrete instance of `C2_cells_defined` at the gap records,
location A, day 0. -/
theorem C2_cells_defined_witness :
    ∃ q : ℚ, (prep_info_df_matrix gapRecords false).lookup "A" 0 = some q ∧
      (zipLookup (sortedDates gapRecords) (stageRow gapRecords false "A") 0 =
          some none → q = 0) ∧
      (∀ v : ℚ,
        zipLookup (sortedDates gapRecords) (stageRow gapRecords false "A") 0 =
            some (some v) → q = v) :=
  C2_cells_defined gapRecords false "A" 0 (by decide) (by decide)

/-- C2 (counterexample): day 1 lies inside the observed min-max range of
`gapRecords`, but the matrix has no cell at (A, 1) at all (the lookup is
`none`), so not every cell of the full location-by-date-range grid holds a
value. -/
theorem C2_counterexample :
    (prep_info_df_matrix gapRecords false).lookup "A" 1 = none ∧
      0 ∈ (prep_info_df_matrix gapRecords false).dates ∧
      2 ∈ (prep_info_df_matrix gapRecords false).dates := by
  refine ⟨?_, by decide, by decide⟩
  with_unfolding_all rfl

/-- Records where location A is observed on days 0 and 4 with values 0 and 4,
and location B is observed on day 1: the matrix's columns are the three
observed dates `[0, 1, 4]`, which are not equally spaced in calendar days. -/
def slopeRecords : List Obs := [⟨"A", 0, 0⟩, ⟨"A", 4, 4⟩, ⟨"B", 1, 5⟩]

/-- C3 (amended): with smoothing disabled, a `NaN` cell lying strictly
between a location's known value at column position `j` and its next known
value at column position `k` receives the straight line *in column position*
between those two values (pandas `method='linear'` treats the columns as
equally spaced); this coincides with the straight line in calendar dates
exactly when the observed dates between the two are consecutive calendar
days.  Cells before a location's first known value are not filled backward by
interpolation: they stay `NaN` and end up `0` by the fallback rule. -/
theorem C3_interpolation :
    (∀ (rs : List Obs) (loc : String) (i j k : Nat) (vj vk : ℚ),
      j < i → i < k →
      (pivotRow rs loc).getD j none = some vj →
      (pivotRow rs loc).getD k none = some vk →
      (∀ m, j < m → m < k → (pivotRow rs loc).getD m none = none) →
      (prepRow rs false loc)[i]? =
        some (vj + (vk - vj) * (((i : ℚ) - (j : ℚ)) / ((k : ℚ) - (j : ℚ))))) ∧
    (∀ (rs : List Obs) (loc : String) (i : Nat), i < (sortedDates rs).length →
      (∀ m, m ≤ i → (pivotRow rs loc).getD m none = none) →
      (prepRow rs false loc)[i]? = some 0) := by
  constructor
  · intro rs loc i j k vj vk hji hik hj hk hgap
    have hk2 : k < (pivotRow rs loc).length := by
      by_contra hnk
      rw [List.getD_eq_default _ _ (by omega)] at hk
      exact Option.noConfusion hk
    have hi2 : i < (pivotRow rs loc).length := by omega
    rw [prepRow_getElem?, stageRow_false, interpRow_getElem? _ i hi2,
      interpAt_between _ i j k vj vk hji hik hj hk hgap]
    rfl
  · intro rs loc i hi hall
    have hi2 : i < (pivotRow rs loc).length := by
      rw [pivotRow_length]
      exact hi
    rw [prepRow_getElem?, stageRow_false, interpRow_getElem? _ i hi2,
      interpAt_leading _ i hall]
    rfl

/-- C3 (witness): concrete instance of `C3_interpolation` on `slopeRecords`:
location A's gap at column position 1 (between known positions 0 and 2)
receives the positional midpoint 2, and location B's cell at position 0
(before B's first known value) receives the fallback 0. -/
theorem C3_interpolation_witness :
    (prepRow slopeRecords false "A")[1]? = some 2 ∧
    (prepRow slopeRecords false "B")[0]? = some 0 := by
  constructor
  · have h := C3_interpolation.1 slopeRecords "A" 1 0 2 0 4 (by decide) (by decide)
      (by with_unfolding_all decide) (by with_unfolding_all decide)
      (fun m h1 h2 => by
        have hm : m = 1 := by omega
        subst hm
        with_unfolding_all decide)
    rw [h]
    norm_num
  · have h := C3_interpolation.2 slopeRecords "B" 0 (by decide)
      (fun m hm => by
        have hm0 : m = 0 := by omega
        subst hm0
        with_unfolding_all decide)
    exact h

/-- C3 (counterexample): for location A in `slopeRecords`, the known values
are 0 at date 0 and 4 at date 4 (consecutive knowns), and date 1 lies
strictly between them; the straight line through (0, 0) and (4, 4) gives
value 1 at date 1, but the matrix holds 2 there (positional interpolation
over the unevenly spaced columns [0, 1, 4]). -/
theorem C3_counterexample :
    (prep_info_df_matrix slopeRecords false).lookup "A" 1 = some 2 ∧
      (0 : ℚ) + ((4 : ℚ) - 0) * (((1 : ℚ) - 0) / ((4 : ℚ) - 0)) ≠ 2 := by
  constructor
  · with_unfolding_all rfl
  · norm_num

/-- Two records sharing the same (location, date) pair with different
values. -/
def dupRecords : List Obs := [⟨"A", 0, 10⟩, ⟨"A", 0, 20⟩]

/-- C10 (confirmed): when at least one record matches a (location, date)
pair, `prep_info_df` does not fail and the matrix cell at that pair is the
arithmetic mean of the matching records' values (the `pivot_table` default
`aggfunc='mean'`); in particular duplicate (location, date) records are
averaged. -/
theorem C10_duplicate_mean (rs : List Obs) (loc : String) (d : Nat)
    (h : matchingVals rs loc d ≠ []) :
    (prep_info_df_matrix rs false).lookup loc d =
      some ((matchingVals rs loc d).sum / ((matchingVals rs loc d).length : ℚ)) := by
  have hfil : rs.filter (fun r => r.location == loc && r.date == d) ≠ [] := by
    intro h0
    apply h
    unfold matchingVals
    rw [h0]
    rfl
  rcases List.exists_mem_of_ne_nil _ hfil with ⟨r, hr⟩
  rcases List.mem_filter.mp hr with ⟨hrs, hp⟩
  simp only [Bool.and_eq_true, beq_iff_eq] at hp
  obtain ⟨hl2, hd3⟩ := hp
  have hloc : loc ∈ sortedLocs rs := mem_sortedLocs.mpr ⟨r, hrs, hl2⟩
  have hdd : d ∈ sortedDates rs := mem_sortedDates.mpr ⟨r, hrs, hd3⟩
  rcases List.mem_iff_getElem?.mp hdd with ⟨i, hi⟩
  have hilen : i < (sortedDates rs).length := by
    rcases List.getElem?_eq_some_iff.mp hi with ⟨hlt, _⟩
    exact hlt
  have hcell : pivotCell rs loc d =
      some ((matchingVals rs loc d).sum / ((matchingVals rs loc d).length : ℚ)) := by
    unfold pivotCell
    rw [if_neg h]
  have hrow : (pivotRow rs loc).getD i none = pivotCell rs loc d := by
    unfold pivotRow
    rw [List.getD_eq_getElem?_getD, List.getElem?_map, hi]
    rfl
  have hinterp : interpAt (pivotRow rs loc) i =
      some ((matchingVals rs loc d).sum / ((matchingVals rs loc d).length : ℚ)) :=
    interpAt_known _ i _ (by rw [hrow, hcell])
  rw [lookup_prep rs false loc d hloc, stageRow_false,
    zipLookup_eq_getElem? (sortedDates rs) _ i d (sortedDates_nodup rs) hi,
    interpRow_getElem? _ i (by rw [pivotRow_length]; exact hilen), hinterp]
  rfl

/-- C10 (witness): the duplicate records (A, day 0) with values 10 and 20
average to 15 in the matrix. -/
theorem C10_duplicate_mean_witness :
    (prep_info_df_matrix dupRecords false).lookup "A" 0 = some 15 := by
  have h := C10_duplicate_mean dupRecords "A" 0 (by with_unfolding_all decide)
  rw [h]
  with_unfolding_all rfl

theorem rollCell_early (xs : List (Option ℚ)) (i : Nat) (hi : i < 6) :
    rollCell xs i = none := by
  have hcond : ¬(7 ≤ i + 1 ∧
      ((List.range 7).map (fun t => xs.getD (i - t) none)).all Option.isSome) :=
    fun hcon => absurd hcon.1 (by omega)
  simp only [rollCell]
  rw [if_neg hcond]

theorem rollCell_full (xs : List (Option ℚ)) (i : Nat) (v : Nat → ℚ) (hi : 6 ≤ i)
    (hw : ∀ t, t < 7 → xs.getD (i - t) none = some (v t)) :
    rollCell xs i = some (((List.range 7).map v).sum / 7) := by
  have hwin : (List.range 7).map (fun t => xs.getD (i - t) none) =
      (List.range 7).map (fun t => some (v t)) :=
    List.map_congr_left (fun t ht => hw t (List.mem_range.mp ht))
  have hc : 7 ≤ i + 1 ∧
      ((List.range 7).map (fun t => some (v t))).all Option.isSome :=
    ⟨by omega, by simp⟩
  simp only [rollCell]
  rw [hwin, if_pos hc, List.map_map]
  rfl

/-- A wide-form dataframe whose date and location columns carry their
original (non-canonical) labels. -/
def fechaTable : InfoTable :=
  { colDates := "Fecha", colLocation := "Territorio", rows := [⟨"A", 0, 1⟩] }

/-- C4 (amended): `get_dates` is modelled as a pure function of the matrix's
columns and its arguments, and returns a fresh list without touching the
matrix; but `prep_info_df` is not side-effect free: its in-place `rename`
mutates the caller's dataframe, relabelling its date column to `'date'` (and
its location column to `'location'`), so the input dataframe is changed
afterwards whenever its labels were not already canonical — only its records
are preserved. -/
theorem C4_mutation (t : InfoTable) (cd cl : String) (roll_avg : Bool)
    (hcd : t.colDates = cd) (hne : cd ≠ "date") :
    (prep_info_df cd cl roll_avg t).2 ≠ t ∧
    (prep_info_df cd cl roll_avg t).2.rows = t.rows ∧
    (prep_info_df cd cl roll_avg t).2.colDates = "date" := by
  have hren : (prep_info_df cd cl roll_avg t).2.colDates = "date" := by
    show (renameInplace cd cl t).colDates = "date"
    unfold renameInplace
    simp [hcd]
  refine ⟨?_, rfl, hren⟩
  intro he
  rw [he] at hren
  exact hne (hcd ▸ hren)

/-- C4 (witness): concrete instance of `C4_mutation` on a dataframe with
columns labelled "Fecha"/"Territorio". -/
theorem C4_mutation_witness :
    (prep_info_df "Fecha" "Territorio" false fechaTable).2 ≠ fechaTable ∧
    (prep_info_df "Fecha" "Territorio" false fechaTable).2.rows =
      fechaTable.rows ∧
    (prep_info_df "Fecha" "Territorio" false fechaTable).2.colDates = "date" :=
  C4_mutation fechaTable "Fecha" "Territorio" false rfl (by decide)

/-- C4 (counterexample): reshaping the "Fecha"/"Territorio" dataframe leaves
the caller's dataframe changed (its date column is now labelled "date"), so
`prep_info_df` is not free of side effects on its input. -/
theorem C4_counterexample :
    (prep_info_df "Fecha" "Territorio" false fechaTable).2 ≠ fechaTable := by
  with_unfolding_all decide

theorem foldl_min_of_le (c : Nat) (cs : List Nat) (h : ∀ x ∈ cs, c ≤ x) :
    cs.foldl min c = c := by
  induction cs generalizing c with
  | nil => rfl
  | cons x cs ih =>
    rw [List.foldl_cons, min_eq_left (h x (List.mem_cons_self x cs))]
    exact ih c (fun y hy => h y (List.mem_cons_of_mem x hy))

/-- C6 (confirmed): on a matrix whose date columns run from `mn` up to `mx`
in strictly ascending order, `get_dates(matrix, 'all')` with the default
begin date returns exactly `mx - mn + 1` dates, one per day, strictly
ascending, starting at `mn` and ending at `mx` inclusive. -/
theorem C6_all_dates (cols : List Nat) (mn mx : Nat)
    (hmn : cols.head? = some mn) (hmx : cols.getLast? = some mx)
    (hsorted : List.Chain' (· < ·) cols) :
    ∃ l, get_dates cols FrameCount.all none = Except.ok l ∧
      l.length = mx - mn + 1 ∧
      ∀ i, i < l.length → l[i]? = some (mn + i) := by
  cases cols with
  | nil => simp at hmn
  | cons c cs =>
    have hc : c = mn := by simpa using hmn
    subst hc
    have hpair : List.Pairwise (· < ·) (c :: cs) :=
      List.chain'_iff_pairwise.mp hsorted
    have hlt : ∀ x ∈ cs, c < x := (List.pairwise_cons.mp hpair).1
    have hfold : cs.foldl min c = c :=
      foldl_min_of_le c cs (fun x hx => le_of_lt (hlt x hx))
    have hne : c :: cs ≠ [] := by simp
    have hlast : (c :: cs).getLast hne = mx := by
      have h1 := List.getLast?_eq_getLast (c :: cs) hne
      rw [hmx] at h1
      exact (Option.some.injEq _ _).mp h1.symm
    have hle : c ≤ mx := by
      have hmem := List.getLast_mem hne
      rw [hlast] at hmem
      rcases List.mem_cons.mp hmem with h1 | h1
      · omega
      · exact le_of_lt (hlt mx h1)
    have hget : get_dates (c :: cs) FrameCount.all none =
        Except.ok ((List.range ((c :: cs).getLast hne + 1 - cs.foldl min c)).map
          (fun n => cs.foldl min c + n)) := rfl
    rw [hget, hfold, hlast]
    refine ⟨_, rfl, ?_, ?_⟩
    · simp
      omega
    · intro i hi
      simp only [List.length_map, List.length_range] at hi
      simp [List.getElem?_map, List.getElem?_range hi]

/-- C6 (witness): concrete instance of `C6_all_dates` on columns
`[3, 4, 5]`. -/
theorem C6_all_dates_witness :
    ∃ l, get_dates [3, 4, 5] FrameCount.all none = Except.ok l ∧
      l.length = 5 - 3 + 1 ∧
      ∀ i, i < l.length → l[i]? = some (3 + i) :=
  C6_all_dates [3, 4, 5] 3 5 (by decide) (by decide)
    (by simp [List.chain'_iff_pairwise, List.pairwise_cons])

/-- C7 (confirmed): for an integer `count > 1`, `get_dates` returns exactly
`count` consecutive calendar dates, one per day in ascending order, starting
at the supplied begin date (or at the matrix's minimum date when none is
supplied) — with no clamping at the matrix's maximum date, so the sequence
may run past it. -/
theorem C7_int_count (cols : List Nat) (mn : Nat) (n : ℤ) (bOpt : Option Nat)
    (hmn : cols.head? = some mn) (hsorted : List.Chain' (· < ·) cols)
    (hn : 1 < n) :
    ∃ l, get_dates cols (FrameCount.int n) bOpt = Except.ok l ∧
      l.length = n.toNat ∧
      ∀ i, i < l.length → l[i]? = some (bOpt.getD mn + i) := by
  cases cols with
  | nil => simp at hmn
  | cons c cs =>
    have hc : c = mn := by simpa using hmn
    subst hc
    have hpair : List.Pairwise (· < ·) (c :: cs) :=
      List.chain'_iff_pairwise.mp hsorted
    have hlt : ∀ x ∈ cs, c < x := (List.pairwise_cons.mp hpair).1
    have hfold : cs.foldl min c = c :=
      foldl_min_of_le c cs (fun x hx => le_of_lt (hlt x hx))
    have hget : get_dates (c :: cs) (FrameCount.int n) bOpt =
        if 1 < n then
          Except.ok ((List.range n.toNat).map
            (fun m => bOpt.getD (cs.foldl min c) + m))
        else Except.error invalidCountMsg := rfl
    rw [hget, if_pos hn, hfold]
    refine ⟨_, rfl, by simp, ?_⟩
    intro i hi
    simp only [List.length_map, List.length_range] at hi
    simp [List.getElem?_map, List.getElem?_range hi]

/-- C7 (witness): concrete instance of `C7_int_count`: 4 frames starting at
the explicit begin date 100, far past the matrix's maximum date 5. -/
theorem C7_int_count_witness :
    ∃ l, get_dates [3, 4, 5] (FrameCount.int 4) (some 100) = Except.ok l ∧
      l.length = (4 : ℤ).toNat ∧
      ∀ i, i < l.length → l[i]? = some ((some 100).getD 3 + i) :=
  C7_int_count [3, 4, 5] 3 4 (some 100) (by decide)
    (by simp [List.chain'_iff_pairwise, List.pairwise_cons]) (by decide)

/-- C8 (amended): `get_dates` fails, producing no date list, whenever `count`
is neither the string `'all'` nor an integer greater than 1 — in particular
at the integers 1 and 0 — but the `ValueError` it raises carries the message
"Invalid count: must be \x22all\x22 or an integer higher than 1" (the word is
"higher", not "greater" as the claim quotes it; the spec's taxonomy maps this
`ValueError` to `ConfigurationError`). -/
theorem C8_invalid_count (cols : List Nat) (count : FrameCount) (b : Option Nat)
    (hne : cols ≠ []) (hnotall : count ≠ FrameCount.all)
    (hnotint : ∀ n : ℤ, count = FrameCount.int n → n ≤ 1) :
    get_dates cols count b = Except.error invalidCountMsg := by
  cases cols with
  | nil => exact absurd rfl hne
  | cons c cs =>
    cases count with
    | all => exact absurd rfl hnotall
    | int n =>
      have hn : n ≤ 1 := hnotint n rfl
      have hget : get_dates (c :: cs) (FrameCount.int n) b =
          if 1 < n then
            Except.ok ((List.range n.toNat).map
              (fun m => b.getD (cs.foldl min c) + m))
          else Except.error invalidCountMsg := rfl
      rw [hget, if_neg (by omega)]
    | other s => rfl

/-- C8 (witness): `get_dates` at counts 1 and 0 both fail with the
`ValueError` message. -/
theorem C8_invalid_count_witness :
    get_dates [0, 1] (FrameCount.int 1) none = Except.error invalidCountMsg ∧
    get_dates [0, 1] (FrameCount.int 0) none = Except.error invalidCountMsg :=
  ⟨C8_invalid_count [0, 1] (FrameCount.int 1) none (by decide) (by decide)
      (fun n hn => by injection hn with h; omega),
    C8_invalid_count [0, 1] (FrameCount.int 0) none (by decide) (by decide)
      (fun n hn => by injection hn with h; omega)⟩

/-- C8 (counterexample): at count 1 the raised error's message is
"Invalid count: must be \x22all\x22 or an integer higher than 1"; the message
quoted by the claim, with "greater", does not occur in it (not even as a
substring). -/
theorem C8_counterexample :
    get_dates [0, 1] (FrameCount.int 1) none = Except.error invalidCountMsg ∧
    ¬ ("must be \x27all\x27 or an integer greater than 1".data <:+:
        invalidCountMsg.data) := by
  exact ⟨rfl, by decide⟩

/-- C9 (amended): `get_dates` performs no validation of an explicitly
supplied begin date against the matrix's date bounds and never raises a
date-range error: with `count='all'` it returns `ok` for every begin date,
yielding the empty list when the begin date lies after the maximum column;
with an integer `count > 1` it returns a full `count`-day sequence starting
at the begin date even when that date lies entirely outside the matrix's
range. -/
theorem C9_no_begin_validation (cols : List Nat) (b mx : Nat)
    (hmx : cols.getLast? = some mx) :
    (∃ l, get_dates cols FrameCount.all (some b) = Except.ok l ∧
      (mx < b → l = [])) ∧
    (∀ n : ℤ, 1 < n →
      ∃ l, get_dates cols (FrameCount.int n) (some b) = Except.ok l ∧
        l.length = n.toNat ∧ l[0]? = some b) := by
  cases cols with
  | nil => simp at hmx
  | cons c cs =>
    have hne : c :: cs ≠ [] := by simp
    have hlast : (c :: cs).getLast hne = mx := by
      have h1 := List.getLast?_eq_getLast (c :: cs) hne
      rw [hmx] at h1
      exact (Option.some.injEq _ _).mp h1.symm
    constructor
    · refine ⟨(List.range ((c :: cs).getLast hne + 1 - b)).map (fun n => b + n),
        rfl, ?_⟩
      intro hlt
      have h0 : (c :: cs).getLast hne + 1 - b = 0 := by
        rw [hlast]
        omega
      rw [h0]
      rfl
    · intro n hn
      have hget : get_dates (c :: cs) (FrameCount.int n) (some b) =
          if 1 < n then
            Except.ok ((List.range n.toNat).map
              (fun m => (some b).getD (cs.foldl min c) + m))
          else Except.error invalidCountMsg := rfl
      refine ⟨(List.range n.toNat).map (fun m => b + m), ?_, by simp, ?_⟩
      · rw [hget, if_pos hn]
        rfl
      · have hpos : 0 < n.toNat := by omega
        simp [List.getElem?_map, List.getElem?_range hpos]

/-- C9 (witness): concrete instance of `C9_no_begin_validation` on columns
`[5, 6, 7]` with the out-of-bounds begin date 10. -/
theorem C9_no_begin_validation_witness :
    (∃ l, get_dates [5, 6, 7] FrameCount.all (some 10) = Except.ok l ∧
      (7 < 10 → l = [])) ∧
    (∀ n : ℤ, 1 < n →
      ∃ l, get_dates [5, 6, 7] (FrameCount.int n) (some 10) = Except.ok l ∧
        l.length = n.toNat ∧ l[0]? = some 10) :=
  C9_no_begin_validation [5, 6, 7] 10 7 (by decide)

/-- C9 (counterexample): a begin date outside the matrix's date bounds does
not fail: with `count='all'` and begin date 10 on columns `[5, 6, 7]` the
call returns `ok []` (no error, silently empty), and with `count=3` and begin
date 100 it returns the full sequence `[100, 101, 102]` entirely outside the
matrix's range — no `DateRangeError` is ever raised. -/
theorem C9_counterexample :
    get_dates [5, 6, 7] FrameCount.all (some 10) = Except.ok [] ∧
    get_dates [5, 6, 7] (FrameCount.int 3) (some 100) =
      Except.ok [100, 101, 102] :=
  ⟨rfl, rfl⟩

/-- Seven consecutive daily observations of value 7 for one location. -/
def smoothRecords : List Obs :=
  [⟨"A", 0, 7⟩, ⟨"A", 1, 7⟩, ⟨"A", 2, 7⟩, ⟨"A", 3, 7⟩, ⟨"A", 4, 7⟩, ⟨"A", 5, 7⟩,
    ⟨"A", 6, 7⟩]

/-- C5 (confirmed): when smoothing is enabled, a cell at column position `i`
whose trailing window of 7 interpolated cells (itself and the 6 preceding
columns) is fully defined is replaced by the mean of those 7 values, and each
of the first 6 column positions of a location, lacking a full 7-point
history, ends up 0 by the fallback rule. -/
theorem C5_smoothing (rs : List Obs) (loc : String) (i : Nat) (v : Nat → ℚ)
    (hi : i < (sortedDates rs).length) :
    (i < 6 → (prepRow rs true loc)[i]? = some 0) ∧
    (6 ≤ i →
      (∀ t, t < 7 →
        (interpRow (pivotRow rs loc)).getD (i - t) none = some (v t)) →
      (prepRow rs true loc)[i]? = some (((List.range 7).map v).sum / 7)) := by
  have hlen : i < (interpRow (pivotRow rs loc)).length := by
    rw [interpRow_length, pivotRow_length]
    exact hi
  constructor
  · intro h6
    rw [prepRow_getElem?, stageRow_true, rollingMean7_getElem? _ i hlen,
      rollCell_early _ i h6]
    rfl
  · intro h6 hw
    rw [prepRow_getElem?, stageRow_true, rollingMean7_getElem? _ i hlen,
      rollCell_full _ i v h6 hw]
    rfl

/-- C5 (witness): concrete instance of `C5_smoothing` on seven consecutive
observations of value 7: position 0 becomes 0 (incomplete window), position 6
becomes the 7-point trailing mean 7. -/
theorem C5_smoothing_witness :
    (prepRow smoothRecords true "A")[0]? = some 0 ∧
    (prepRow smoothRecords true "A")[6]? = some 7 := by
  constructor
  · exact (C5_smoothing smoothRecords "A" 0 (fun _ => 7) (by decide)).1 (by decide)
  · have h := (C5_smoothing smoothRecords "A" 6 (fun _ => 7) (by decide)).2
      (by decide) (by with_unfolding_all decide)
    rw [h]
    with_unfolding_all rfl
